import Mathlib

/-!
Verification of the minlzma decompressor (minlzlib) against its
natural-language specification.

The development shallowly embeds the C sources:
  - inputbuf.c  : input cursor (BfSeek, BfRead)
  - lzma2dec.c  : LZMA2 chunk framer (Lz2DecodeChunk, Lz2DecodeStream)
  - xzstream.c  : XZ container framer (XzDecodeVli, XzDecodeStreamHeader,
                  XzDecodeStreamFooter)
Machine integers are modelled as Nat with explicit reduction mod 2^32
(uint32) and mod 2^16 (uint16) where the C types truncate.  Fallible
operations return Option or carry an explicit ok flag mirroring the C
bool results and out-parameters.

Components whose C sources are not available (dictbuf.c, rangedec.c,
lzmadec.c, and the header files) are modelled from the specification;
each such definition carries a doc comment saying so.
-/

namespace Minlz

def U32 : Nat := 2 ^ 32

def U16 : Nat := 2 ^ 16

/-- One byte of C memory: lists model byte buffers, reads reduce mod 256
(out-of-range reads return the default 0). -/
def byteAt (buf : List Nat) (i : Nat) : Nat := buf.getD i 0 % 256

/-- BUFFER_STATE from inputbuf.c: start of the buffer, current offset,
and total input size (Offset and Size are uint32). -/
structure BufferState where
  buffer : List Nat
  offset : Nat
  size : Nat
deriving Repr, DecidableEq

/-- Result of BfSeek: the C bool return, the out-parameter Bytes
(none models the null pointer, some o models a pointer to Buffer[o]),
and the buffer state after the call. -/
structure SeekResult where
  ok : Bool
  view : Option Nat
  st : BufferState
deriving Repr, DecidableEq

/-- BfSeek from inputbuf.c: if (In.Offset + Length) > In.Size (uint32
arithmetic, hence mod 2^32) fail with a null view; otherwise return the
current position and advance the offset by Length (uint32). -/
def bfSeek (st : BufferState) (len : Nat) : SeekResult :=
  if (st.offset + len) % U32 > st.size then
    ⟨false, none, st⟩
  else
    ⟨true, some st.offset, ⟨st.buffer, (st.offset + len) % U32, st.size⟩⟩

/-- Result of BfRead: the C bool return, the out-parameter Byte, and the
buffer state after the call. -/
structure ReadResult where
  ok : Bool
  byte : Nat
  st : BufferState
deriving Repr, DecidableEq

/-- BfRead from inputbuf.c: seek past one byte and capture it; on
failure store 0 into the out-parameter. -/
def bfRead (st : BufferState) : ReadResult :=
  let r := bfSeek st 1
  if r.ok then ⟨true, byteAt st.buffer st.offset, r.st⟩
  else ⟨false, 0, r.st⟩

/-- C8 counterexample: the claim says BfSeek fails exactly when
offset + n > size, for every requested length n.  With offset 1 and
size 10, requesting n = 2^32 - 1 makes the uint32 sum wrap to 0, so the
seek succeeds even though offset + n > size mathematically. -/
theorem c8_seek_cex :
    (bfSeek ⟨[], 1, 10⟩ (U32 - 1)).ok = true ∧ 1 + (U32 - 1) > 10 := by
  constructor
  · decide
  · decide

/-- C8 (amended): for every cursor with offset ≤ size whose requested
length causes no uint32 overflow (offset + n < 2^32), BfSeek fails
exactly when offset + n > size, leaves the state unchanged with a null
view on failure, and on success returns the view at the old offset and
advances the offset by exactly n, keeping offset ≤ size. -/
theorem c8_seek_bounds (st : BufferState) (n : Nat)
    (hle : st.offset ≤ st.size) (hnw : st.offset + n < U32) :
    ((bfSeek st n).ok = false ↔ st.offset + n > st.size) ∧
    ((bfSeek st n).ok = false → (bfSeek st n).st = st ∧ (bfSeek st n).view = none) ∧
    ((bfSeek st n).ok = true →
      (bfSeek st n).view = some st.offset ∧
      (bfSeek st n).st.offset = st.offset + n ∧
      (bfSeek st n).st.offset ≤ st.size ∧
      (bfSeek st n).st.buffer = st.buffer ∧
      (bfSeek st n).st.size = st.size) := by
  have hmod : (st.offset + n) % U32 = st.offset + n := Nat.mod_eq_of_lt hnw
  unfold bfSeek
  rw [hmod]
  by_cases h : st.offset + n > st.size
  · simp [h]
  · simp [h]
    omega

/-- C8 witness: the amended theorem applied at a concrete cursor. -/
theorem c8_seek_bounds_w :
    (bfSeek ⟨[7, 7, 7], 1, 3⟩ 2).view = some 1 ∧
    (bfSeek ⟨[7, 7, 7], 1, 3⟩ 2).st.offset = 1 + 2 ∧
    (bfSeek ⟨[7, 7, 7], 1, 3⟩ 2).st.offset ≤ 3 ∧
    (bfSeek ⟨[7, 7, 7], 1, 3⟩ 2).st.buffer = [7, 7, 7] ∧
    (bfSeek ⟨[7, 7, 7], 1, 3⟩ 2).st.size = 3 :=
  (c8_seek_bounds ⟨[7, 7, 7], 1, 3⟩ 2 (by decide) (by decide)).2.2 (by decide)

/-- C10: every failing input-cursor operation is side-effect-free: a
failing BfSeek leaves the whole cursor state unchanged and nulls the
view out-parameter, and a failing BfRead leaves the cursor unchanged
and stores 0 into the byte out-parameter. -/
theorem c10_failed_ops_pure (st : BufferState) (n : Nat) :
    ((bfSeek st n).ok = false → (bfSeek st n).st = st ∧ (bfSeek st n).view = none) ∧
    ((bfRead st).ok = false → (bfRead st).st = st ∧ (bfRead st).byte = 0) := by
  constructor
  · intro h
    unfold bfSeek at *
    by_cases hc : (st.offset + n) % U32 > st.size
    · simp [hc]
    · simp [hc] at h
  · intro h
    unfold bfRead bfSeek at *
    by_cases hc : (st.offset + 1) % U32 > st.size
    · simp [hc]
    · simp [hc] at h

/-- C10 witness: a seek of 2 and a read at the end of a 1-byte buffer
both fail and leave the cursor untouched. -/
theorem c10_failed_ops_pure_w :
    ((bfSeek ⟨[9], 1, 1⟩ 2).st = ⟨[9], 1, 1⟩ ∧ (bfSeek ⟨[9], 1, 1⟩ 2).view = none) ∧
    ((bfRead ⟨[9], 1, 1⟩).st = ⟨[9], 1, 1⟩ ∧ (bfRead ⟨[9], 1, 1⟩).byte = 0) :=
  ⟨(c10_failed_ops_pure ⟨[9], 1, 1⟩ 2).1 (by decide),
   (c10_failed_ops_pure ⟨[9], 1, 1⟩ 2).2 (by decide)⟩

/-! ### XZ variable-length integers (XzDecodeVli, xzstream.c) -/

/-- Modelled from the spec: the constant VLI_BYTES_MAX from the missing
xzstream.h header.  The spec rejects VLI sequences longer than 9 bytes,
and the sole caller in src stores the result in a uint32, fixing
vli_type at 32 bits. -/
def VLI_BYTES_MAX : Nat := 9

/-- The while loop of XzDecodeVli from xzstream.c, run while the last
byte had its high bit set: read the next byte; fail at end of input,
when bitPos reaches 7 * VLI_BYTES_MAX, or when the byte is zero;
otherwise OR in the low 7 bits shifted by bitPos, truncated to the
32-bit vli_type.  The fuel argument only bounds recursion; the bitPos
check exits the loop after at most 9 continuation bytes, so any fuel
above VLI_BYTES_MAX is never exhausted. -/
def xzVliLoop (fuel : Nat) (st : BufferState) (acc bitPos vliByte : Nat) :
    Option (Nat × BufferState) :=
  match fuel with
  | 0 => none
  | fuel + 1 =>
    if vliByte / 128 = 0 then some (acc, st)
    else
      let r := bfRead st
      if r.ok = false then none
      else if bitPos = 7 * VLI_BYTES_MAX ∨ r.byte = 0 then none
      else xzVliLoop fuel r.st (acc ||| (((r.byte % 128) <<< bitPos) % U32)) (bitPos + 7) r.byte

/-- XzDecodeVli from xzstream.c: read the initial byte (failing at end
of input), start the value at its low 7 bits, then run the continuation
loop starting at bitPos 7. -/
def xzDecodeVli (st : BufferState) : Option (Nat × BufferState) :=
  let r := bfRead st
  if r.ok = false then none
  else xzVliLoop (VLI_BYTES_MAX + 1) r.st (r.byte % 128) 7 r.byte

/-- The bytes still available to the cursor, as a list. -/
def bytesAvail (st : BufferState) : List Nat :=
  (List.range (st.size - st.offset)).map (fun i => byteAt st.buffer (st.offset + i))

/-- Reference VLI decoder written from the words of the claim: read
bytes until one with the high bit clear; byte i contributes its low 7
bits shifted left by 7 * i (truncated to the 32-bit vli_type); fail on
end of input, on sequences longer than VLI_BYTES_MAX bytes, and on a
terminating byte after the first that is zero.  Returns the value and
the total number of bytes of the encoding. -/
def vliSpecAux : Nat → List Nat → Option (Nat × Nat)
  | _, [] => none
  | i, b :: bs =>
    if 0 < i ∧ (VLI_BYTES_MAX ≤ i ∨ b = 0) then none
    else if b < 128 then some ((b <<< (7 * i)) % U32, i + 1)
    else
      match vliSpecAux (i + 1) bs with
      | none => none
      | some (v, n) => some ((((b % 128) <<< (7 * i)) % U32) ||| v, n)

theorem byteAt_lt (buf : List Nat) (i : Nat) : byteAt buf i < 256 := by
  unfold byteAt
  exact Nat.mod_lt _ (by omega)

theorem vliSpecAux_nil (i : Nat) : vliSpecAux i [] = none := rfl

theorem vliSpecAux_cons (i b : Nat) (bs : List Nat) :
    vliSpecAux i (b :: bs) =
      if 0 < i ∧ (VLI_BYTES_MAX ≤ i ∨ b = 0) then none
      else if b < 128 then some ((b <<< (7 * i)) % U32, i + 1)
      else
        match vliSpecAux (i + 1) bs with
        | none => none
        | some (v, n) => some ((((b % 128) <<< (7 * i)) % U32) ||| v, n) := rfl

theorem vliSpecAux_pos (bs : List Nat) :
    ∀ i v n, vliSpecAux i bs = some (v, n) → i < n := by
  induction bs with
  | nil =>
    intro i v n h
    rw [vliSpecAux_nil] at h
    exact absurd h (by simp)
  | cons b bs ih =>
    intro i v n h
    rw [vliSpecAux_cons] at h
    by_cases h1 : 0 < i ∧ (VLI_BYTES_MAX ≤ i ∨ b = 0)
    · rw [if_pos h1] at h
      exact absurd h (by simp)
    · rw [if_neg h1] at h
      by_cases h2 : b < 128
      · rw [if_pos h2] at h
        have hn : i + 1 = n := congrArg Prod.snd (Option.some.inj h)
        omega
      · rw [if_neg h2] at h
        cases hrec : vliSpecAux (i + 1) bs with
        | none =>
          rw [hrec] at h
          exact absurd h (by simp)
        | some p =>
          rw [hrec] at h
          have hn : p.2 = n := congrArg Prod.snd (Option.some.inj h)
          have := ih (i + 1) p.1 p.2 (by rw [hrec])
          omega

theorem bfSeek_in_bounds (b : List Nat) (o s n : Nat)
    (hle : o + n ≤ s) (hW : o + n < U32) :
    bfSeek ⟨b, o, s⟩ n = ⟨true, some o, ⟨b, o + n, s⟩⟩ := by
  unfold bfSeek
  dsimp only
  rw [Nat.mod_eq_of_lt hW]
  rw [if_neg (by omega)]

theorem bfSeek_out_of_bounds (b : List Nat) (o s n : Nat)
    (hgt : o + n > s) (hW : o + n < U32) :
    bfSeek ⟨b, o, s⟩ n = ⟨false, none, ⟨b, o, s⟩⟩ := by
  unfold bfSeek
  dsimp only
  rw [Nat.mod_eq_of_lt hW]
  rw [if_pos (by omega)]

theorem bfRead_mid (b : List Nat) (o s : Nat) (ho : o < s) (hs : s + 1 < U32) :
    bfRead ⟨b, o, s⟩ = ⟨true, byteAt b o, ⟨b, o + 1, s⟩⟩ := by
  unfold bfRead
  rw [bfSeek_in_bounds b o s 1 (by omega) (by omega)]
  rfl

theorem bfRead_fail (b : List Nat) (o s : Nat) (ho : s < o + 1) (hW : o + 1 < U32) :
    bfRead ⟨b, o, s⟩ = ⟨false, 0, ⟨b, o, s⟩⟩ := by
  unfold bfRead
  rw [bfSeek_out_of_bounds b o s 1 (by omega) hW]
  rfl

theorem bytesAvail_cons (b : List Nat) (o s : Nat) (ho : o < s) :
    bytesAvail ⟨b, o, s⟩ = byteAt b o :: bytesAvail ⟨b, o + 1, s⟩ := by
  unfold bytesAvail
  dsimp only
  have h1 : s - o = (s - (o + 1)) + 1 := by omega
  rw [h1, List.range_succ_eq_map, List.map_cons, List.map_map]
  congr 1
  apply List.map_congr_left
  intro a ha
  simp only [Function.comp_apply]
  congr 1
  omega

theorem bytesAvail_end (b : List Nat) (s : Nat) :
    bytesAvail ⟨b, s, s⟩ = [] := by
  unfold bytesAvail
  simp

theorem xzVliLoop_succ (fuel : Nat) (st : BufferState) (acc bitPos vliByte : Nat) :
    xzVliLoop (fuel + 1) st acc bitPos vliByte =
      if vliByte / 128 = 0 then some (acc, st)
      else
        if (bfRead st).ok = false then none
        else if bitPos = 7 * VLI_BYTES_MAX ∨ (bfRead st).byte = 0 then none
        else xzVliLoop fuel (bfRead st).st
          (acc ||| ((((bfRead st).byte % 128) <<< bitPos) % U32)) (bitPos + 7)
          (bfRead st).byte := rfl

theorem xzVliLoop_spec (fuel : Nat) :
    ∀ (st : BufferState) (acc i last : Nat),
      1 ≤ i → i ≤ VLI_BYTES_MAX → VLI_BYTES_MAX + 1 ≤ fuel + i →
      128 ≤ last → st.offset ≤ st.size → st.size + 1 < U32 →
      xzVliLoop fuel st acc (7 * i) last =
        match vliSpecAux i (bytesAvail st) with
        | none => none
        | some (v, n) => some (acc ||| v, ⟨st.buffer, st.offset + (n - i), st.size⟩) := by
  induction fuel with
  | zero =>
    intro st acc i last h1 h2 h3 h4 h5 h6
    exact absurd h3 (by unfold VLI_BYTES_MAX at h2 ⊢; omega)
  | succ fuel ih =>
    intro st acc i last h1 h2 h3 hlast hle hsz
    obtain ⟨b, o, s⟩ := st
    dsimp only at hle hsz ⊢
    have hdiv : ¬ last / 128 = 0 := by
      intro hcon
      have hm : last % 128 < 128 := Nat.mod_lt _ (by omega)
      have hd := Nat.div_add_mod last 128
      rw [hcon] at hd
      omega
    rw [xzVliLoop_succ, if_neg hdiv]
    by_cases ho : s ≤ o
    · have hoe : o = s := by omega
      subst hoe
      rw [bfRead_fail b o o (by omega) (by omega)]
      rw [bytesAvail_end]
      rw [vliSpecAux_nil]
      rw [if_pos rfl]
    · have hlt : o < s := by omega
      rw [bfRead_mid b o s hlt hsz]
      rw [bytesAvail_cons b o s hlt, vliSpecAux_cons]
      dsimp only
      rw [if_neg (by simp : ¬ (true = false))]
      by_cases hstop : 7 * i = 7 * VLI_BYTES_MAX ∨ byteAt b o = 0
      · rw [if_pos hstop]
        rw [if_pos (show 0 < i ∧ (VLI_BYTES_MAX ≤ i ∨ byteAt b o = 0) by
          unfold VLI_BYTES_MAX at h2 hstop ⊢
          omega)]
      · rw [if_neg hstop]
        rw [if_neg (show ¬ (0 < i ∧ (VLI_BYTES_MAX ≤ i ∨ byteAt b o = 0)) by
          unfold VLI_BYTES_MAX at h2 hstop ⊢
          omega)]
        by_cases hb : byteAt b o < 128
        · obtain ⟨f, hf⟩ : ∃ f, fuel = f + 1 :=
            ⟨fuel - 1, by unfold VLI_BYTES_MAX at h2 h3 hstop; omega⟩
          rw [hf, xzVliLoop_succ]
          rw [if_pos (Nat.div_eq_of_lt hb)]
          rw [if_pos hb]
          rw [Nat.mod_eq_of_lt hb]
          dsimp only
          rw [show i + 1 - i = 1 by omega]
        · have hb128 : 128 ≤ byteAt b o := by omega
          rw [show 7 * i + 7 = 7 * (i + 1) by ring]
          rw [ih ⟨b, o + 1, s⟩ (acc ||| (((byteAt b o % 128) <<< (7 * i)) % U32))
                (i + 1) (byteAt b o) (by omega)
                (show i + 1 ≤ VLI_BYTES_MAX by
                  unfold VLI_BYTES_MAX at h2 hstop ⊢; omega)
                (show VLI_BYTES_MAX + 1 ≤ fuel + (i + 1) by omega)
                hb128 (show o + 1 ≤ s by omega) hsz]
          rw [if_neg hb]
          cases hrec : vliSpecAux (i + 1) (bytesAvail ⟨b, o + 1, s⟩) with
          | none => rfl
          | some p =>
            obtain ⟨v, n⟩ := p
            have hn : i + 1 < n := vliSpecAux_pos _ _ _ _ hrec
            dsimp only
            rw [Nat.or_assoc]
            rw [show o + 1 + (n - (i + 1)) = o + (n - i) by omega]

/-- C7 counterexample: the claim states the decoded value accumulates
(byte AND 0x7F) shifted left by 7 * i for each byte i.  On the 5-byte
sequence 80 80 80 80 7F the terminating byte contributes
0x7F << 28 = 0x7F0000000, but the value is stored in the 32-bit
vli_type, so the code returns 0xF0000000 instead. -/
theorem c7_vli_cex :
    xzDecodeVli ⟨[128, 128, 128, 128, 127], 0, 5⟩ =
      some (4026531840, ⟨[128, 128, 128, 128, 127], 5, 5⟩) ∧
    (127 <<< (7 * 4)) ≠ 4026531840 := by
  constructor
  · decide
  · decide

/-- C7 (amended): XzDecodeVli reads bytes until one with the high bit
clear, accumulating the low 7 bits of byte i shifted left by 7 * i and
truncated to the 32-bit vli_type; it fails at end of input, on
sequences longer than 9 bytes, and on a terminating byte after the
first that is zero; on success it returns the accumulated value and
advances the cursor by exactly the length of the encoding.  Stated as
a refinement against the reference decoder vliSpecAux. -/
theorem c7_vli_refines (st : BufferState)
    (hle : st.offset ≤ st.size) (hsz : st.size + 1 < U32) :
    xzDecodeVli st =
      match vliSpecAux 0 (bytesAvail st) with
      | none => none
      | some (v, n) => some (v, ⟨st.buffer, st.offset + n, st.size⟩) := by
  obtain ⟨b, o, s⟩ := st
  dsimp only at hle hsz ⊢
  unfold xzDecodeVli
  by_cases ho : s ≤ o
  · have hoe : o = s := by omega
    subst hoe
    rw [bfRead_fail b o o (by omega) (by omega)]
    rw [bytesAvail_end]
    rw [vliSpecAux_nil]
    dsimp only
    rw [if_pos rfl]
  · have hlt : o < s := by omega
    rw [bfRead_mid b o s hlt hsz]
    rw [bytesAvail_cons b o s hlt, vliSpecAux_cons]
    dsimp only
    rw [if_neg (by simp : ¬ (true = false))]
    rw [if_neg (show ¬ (0 < 0 ∧ (VLI_BYTES_MAX ≤ 0 ∨ byteAt b o = 0)) by simp)]
    by_cases hb : byteAt b o < 128
    · rw [if_pos hb]
      rw [xzVliLoop_succ]
      rw [if_pos (Nat.div_eq_of_lt hb)]
      rw [Nat.mod_eq_of_lt hb]
      rw [Nat.mul_zero, Nat.shiftLeft_zero]
      rw [Nat.mod_eq_of_lt (show byteAt b o < U32 by
        have := byteAt_lt b o; unfold U32; omega)]
    · have hb128 : 128 ≤ byteAt b o := by omega
      rw [if_neg hb]
      have hloop := xzVliLoop_spec (VLI_BYTES_MAX + 1) ⟨b, o + 1, s⟩
        (byteAt b o % 128) 1 (byteAt b o) (by omega) (by decide) (by decide)
        hb128 (show o + 1 ≤ s by omega) hsz
      rw [Nat.mul_one] at hloop
      rw [hloop]
      rw [show (0 : Nat) + 1 = 1 from rfl]
      cases hrec : vliSpecAux 1 (bytesAvail ⟨b, o + 1, s⟩) with
      | none => rfl
      | some p =>
        obtain ⟨v, n⟩ := p
        have hn : 1 < n := vliSpecAux_pos _ _ _ _ hrec
        dsimp only
        rw [Nat.mul_zero, Nat.shiftLeft_zero]
        rw [Nat.mod_eq_of_lt (show byteAt b o % 128 < U32 by unfold U32; omega)]
        rw [show o + 1 + (n - 1) = o + n by omega]

/-- C7 witness: the refinement theorem applied to the 2-byte VLI
87 23, which decodes to 7 + (0x23 << 7) = 4487. -/
theorem c7_vli_refines_w :
    xzDecodeVli ⟨[135, 35], 0, 2⟩ = some (4487, ⟨[135, 35], 2, 2⟩) := by
  have h := c7_vli_refines ⟨[135, 35], 0, 2⟩ (by decide) (by decide)
  rw [h]
  decide

/-! ### XZ stream header and footer (xzstream.c, meta checks enabled) -/

theorem bfSeek_ok_iff (st : BufferState) (n : Nat) :
    (bfSeek st n).ok = false ↔ (st.offset + n) % U32 > st.size := by
  unfold bfSeek
  by_cases h : (st.offset + n) % U32 > st.size
  · rw [if_pos h]
    simpa using h
  · rw [if_neg h]
    simpa using h

/-- XzDecodeStreamHeader from xzstream.c, with MINLZ_META_CHECKS
enabled and MINLZ_INTEGRITY_CHECKS disabled.  The XZ_STREAM_HEADER
layout is modelled from the spec (the xzstream.h header is missing
from src): 6 magic bytes, then a null flags byte and a one-byte check
type, the pair also being readable as a 16-bit little-endian Flags
field, then a 32-bit CRC.  The code seeks past the 12-byte header,
validates the magic (a 32-bit little-endian load of bytes 1..4 against
the character constant for z7ZX, plus bytes 0 and 5), rejects when the
16-bit flags field is nonzero and the check type is neither CRC32 (1)
nor none (0), and records ChecksumSize = CheckType * 4, which is
returned on success. -/
def xzDecodeStreamHeader (st : BufferState) : Option (Nat × BufferState) :=
  if (bfSeek st 12).ok = false then none
  else if ¬ (byteAt st.buffer (st.offset + 1) + byteAt st.buffer (st.offset + 2) * 256 +
             byteAt st.buffer (st.offset + 3) * 65536 +
             byteAt st.buffer (st.offset + 4) * 16777216 = 0x5A587A37) ∨
          ¬ (byteAt st.buffer st.offset = 0xFD) ∨
          ¬ (byteAt st.buffer (st.offset + 5) = 0) then none
  else if (byteAt st.buffer (st.offset + 6) + byteAt st.buffer (st.offset + 7) * 256 ≠ 0) ∧
          (byteAt st.buffer (st.offset + 7) ≠ 1 ∧ byteAt st.buffer (st.offset + 7) ≠ 0) then
    none
  else some (byteAt st.buffer (st.offset + 7) * 4, (bfSeek st 12).st)

/-- XzDecodeStreamFooter from xzstream.c, with MINLZ_META_CHECKS
enabled and MINLZ_INTEGRITY_CHECKS disabled.  The XZ_STREAM_FOOTER
layout is modelled from the spec (xzstream.h is missing from src): a
32-bit CRC, a 32-bit little-endian BackwardSize, the two flag bytes
(16-bit Flags, the second byte being the check type), and the 16-bit
magic read as the character constant for ZY.  The code validates the
magic, rejects when the flags field is nonzero and the check type is
unsupported, and requires the recorded index size to equal
BackwardSize * 4 (uint32 arithmetic). -/
def xzDecodeStreamFooter (indexSize : Nat) (st : BufferState) : Option BufferState :=
  if (bfSeek st 12).ok = false then none
  else if ¬ (byteAt st.buffer (st.offset + 10) + byteAt st.buffer (st.offset + 11) * 256 =
             0x5A59) then none
  else if (byteAt st.buffer (st.offset + 8) + byteAt st.buffer (st.offset + 9) * 256 ≠ 0) ∧
          (byteAt st.buffer (st.offset + 9) ≠ 1 ∧ byteAt st.buffer (st.offset + 9) ≠ 0) then
    none
  else if ¬ (indexSize =
      ((byteAt st.buffer (st.offset + 4) + byteAt st.buffer (st.offset + 5) * 256 +
        byteAt st.buffer (st.offset + 6) * 65536 +
        byteAt st.buffer (st.offset + 7) * 16777216) * 4) % U32) then none
  else some (bfSeek st 12).st

/-- C5 counterexample: the claim says the header is accepted only when
the null flags byte is zero.  A header whose null flags byte is 0xFF
but whose check type byte is 1 passes the check in the code, because
the rejection requires the check type to be unsupported as well. -/
theorem c5_stream_header_cex :
    (xzDecodeStreamHeader
      ⟨[0xFD, 0x37, 0x7A, 0x58, 0x5A, 0x00, 0xFF, 0x01, 0, 0, 0, 0], 0, 12⟩).isSome = true ∧
    byteAt [0xFD, 0x37, 0x7A, 0x58, 0x5A, 0x00, 0xFF, 0x01, 0, 0, 0, 0] 6 ≠ 0 := by
  constructor
  · decide
  · decide

/-- C5 (amended): with meta checks enabled, XzDecodeStreamHeader
accepts exactly when 12 bytes are available, the magic bytes are
FD 37 7A 58 5A 00, and the check-type byte is 0 or 1; the null flags
byte is not validated on its own (it is only consulted through the
16-bit flags word, whose nonzero values are accepted whenever the
check-type byte is supported). -/
theorem c5_stream_header_accepts (st : BufferState) :
    (xzDecodeStreamHeader st).isSome = true ↔
      ((st.offset + 12) % U32 ≤ st.size ∧
       byteAt st.buffer st.offset = 0xFD ∧
       byteAt st.buffer (st.offset + 1) = 0x37 ∧
       byteAt st.buffer (st.offset + 2) = 0x7A ∧
       byteAt st.buffer (st.offset + 3) = 0x58 ∧
       byteAt st.buffer (st.offset + 4) = 0x5A ∧
       byteAt st.buffer (st.offset + 5) = 0 ∧
       (byteAt st.buffer (st.offset + 7) = 0 ∨ byteAt st.buffer (st.offset + 7) = 1)) := by
  have hb1 := byteAt_lt st.buffer (st.offset + 1)
  have hb2 := byteAt_lt st.buffer (st.offset + 2)
  have hb3 := byteAt_lt st.buffer (st.offset + 3)
  have hb4 := byteAt_lt st.buffer (st.offset + 4)
  have hb6 := byteAt_lt st.buffer (st.offset + 6)
  have hb7 := byteAt_lt st.buffer (st.offset + 7)
  unfold xzDecodeStreamHeader
  by_cases h0 : (st.offset + 12) % U32 > st.size
  · rw [if_pos ((bfSeek_ok_iff st 12).mpr h0)]
    exact iff_of_false (by simp) (by omega)
  · rw [if_neg (fun hc => h0 ((bfSeek_ok_iff st 12).mp hc))]
    by_cases h1 : ¬ (byteAt st.buffer (st.offset + 1) + byteAt st.buffer (st.offset + 2) * 256 +
          byteAt st.buffer (st.offset + 3) * 65536 +
          byteAt st.buffer (st.offset + 4) * 16777216 = 0x5A587A37) ∨
        ¬ (byteAt st.buffer st.offset = 0xFD) ∨
        ¬ (byteAt st.buffer (st.offset + 5) = 0)
    · rw [if_pos h1]
      exact iff_of_false (by simp) (by omega)
    · rw [if_neg h1]
      by_cases h2 : (byteAt st.buffer (st.offset + 6) +
            byteAt st.buffer (st.offset + 7) * 256 ≠ 0) ∧
          (byteAt st.buffer (st.offset + 7) ≠ 1 ∧ byteAt st.buffer (st.offset + 7) ≠ 0)
      · rw [if_pos h2]
        exact iff_of_false (by simp) (by omega)
      · rw [if_neg h2]
        exact iff_of_true (by simp) (by omega)

/-- C5 witness: the amended acceptance condition applied to a
well-formed header with check type 1. -/
theorem c5_stream_header_accepts_w :
    (xzDecodeStreamHeader
      ⟨[0xFD, 0x37, 0x7A, 0x58, 0x5A, 0x00, 0x00, 0x01, 9, 9, 9, 9], 0, 12⟩).isSome = true :=
  (c5_stream_header_accepts
      ⟨[0xFD, 0x37, 0x7A, 0x58, 0x5A, 0x00, 0x00, 0x01, 9, 9, 9, 9], 0, 12⟩).mpr (by decide)

/-- C6 counterexample: the claim says the footer is accepted only when
its two flag bytes equal the stream header flag bytes.  Here a header
with flag bytes 00 00 is accepted, and a footer with flag bytes 00 01
and a matching backward size is also accepted, although the flag pairs
differ: the code never compares the footer flags with the header
flags. -/
theorem c6_stream_footer_cex :
    (xzDecodeStreamHeader
      ⟨[0xFD, 0x37, 0x7A, 0x58, 0x5A, 0x00, 0x00, 0x00, 0, 0, 0, 0], 0, 12⟩).isSome = true ∧
    (xzDecodeStreamFooter 8
      ⟨[0, 0, 0, 0, 2, 0, 0, 0, 0, 1, 0x59, 0x5A], 0, 12⟩).isSome = true ∧
    byteAt [0, 0, 0, 0, 2, 0, 0, 0, 0, 1, 0x59, 0x5A] 9 ≠
      byteAt [0xFD, 0x37, 0x7A, 0x58, 0x5A, 0x00, 0x00, 0x00, 0, 0, 0, 0] 7 := by
  refine ⟨by decide, by decide, by decide⟩

/-- C6 (amended): with meta checks enabled, XzDecodeStreamFooter
accepts exactly when 12 bytes are available, the footer magic bytes
are 59 5A (the characters Y and Z), the check-type byte is 0 or 1 (the
rest of the flags word is otherwise unconstrained), and the recorded
index size equals BackwardSize * 4 in uint32 arithmetic; the footer
flag bytes are never compared against the stream header flag bytes. -/
theorem c6_stream_footer_accepts (indexSize : Nat) (st : BufferState) :
    (xzDecodeStreamFooter indexSize st).isSome = true ↔
      ((st.offset + 12) % U32 ≤ st.size ∧
       byteAt st.buffer (st.offset + 10) = 0x59 ∧
       byteAt st.buffer (st.offset + 11) = 0x5A ∧
       (byteAt st.buffer (st.offset + 9) = 0 ∨ byteAt st.buffer (st.offset + 9) = 1) ∧
       indexSize =
         ((byteAt st.buffer (st.offset + 4) + byteAt st.buffer (st.offset + 5) * 256 +
           byteAt st.buffer (st.offset + 6) * 65536 +
           byteAt st.buffer (st.offset + 7) * 16777216) * 4) % U32) := by
  have hb8 := byteAt_lt st.buffer (st.offset + 8)
  have hb9 := byteAt_lt st.buffer (st.offset + 9)
  have hb10 := byteAt_lt st.buffer (st.offset + 10)
  have hb11 := byteAt_lt st.buffer (st.offset + 11)
  unfold xzDecodeStreamFooter
  by_cases h0 : (st.offset + 12) % U32 > st.size
  · rw [if_pos ((bfSeek_ok_iff st 12).mpr h0)]
    exact iff_of_false (by simp) (by omega)
  · rw [if_neg (fun hc => h0 ((bfSeek_ok_iff st 12).mp hc))]
    by_cases h1 : ¬ (byteAt st.buffer (st.offset + 10) +
        byteAt st.buffer (st.offset + 11) * 256 = 0x5A59)
    · rw [if_pos h1]
      exact iff_of_false (by simp) (by omega)
    · rw [if_neg h1]
      by_cases h2 : (byteAt st.buffer (st.offset + 8) +
            byteAt st.buffer (st.offset + 9) * 256 ≠ 0) ∧
          (byteAt st.buffer (st.offset + 9) ≠ 1 ∧ byteAt st.buffer (st.offset + 9) ≠ 0)
      · rw [if_pos h2]
        exact iff_of_false (by simp) (by omega)
      · rw [if_neg h2]
        by_cases h3 : ¬ (indexSize =
            ((byteAt st.buffer (st.offset + 4) + byteAt st.buffer (st.offset + 5) * 256 +
              byteAt st.buffer (st.offset + 6) * 65536 +
              byteAt st.buffer (st.offset + 7) * 16777216) * 4) % U32)
        · rw [if_pos h3]
          exact iff_of_false (by simp) (by omega)
        · rw [if_neg h3]
          exact iff_of_true (by simp) (by omega)

/-- C6 witness: the amended acceptance condition applied to a
well-formed footer describing a 4-byte index. -/
theorem c6_stream_footer_accepts_w :
    (xzDecodeStreamFooter 4
      ⟨[0, 0, 0, 0, 1, 0, 0, 0, 0, 0, 0x59, 0x5A], 0, 12⟩).isSome = true :=
  (c6_stream_footer_accepts 4
      ⟨[0, 0, 0, 0, 1, 0, 0, 0, 0, 0, 0x59, 0x5A], 0, 12⟩).mpr (by decide)

/-! ### LZMA2 chunk framer (lzma2dec.c)

The framer drives three collaborators whose C sources are missing from
src and are therefore modelled from the specification: the dictionary
(dictbuf.c), the range coder (rangedec.c), and the LZMA engine
(lzmadec.c).  The engine itself is kept abstract as a function on the
decoder state; the framer theorems hold for every such function. -/

/-- Modelled from the spec: the dictionary state from the missing
dictbuf.c — a caller-provided buffer of capacity bufferSize, the
position written so far, the per-chunk limit, and the historyStart
anchor set at chunk start. -/
structure DictState where
  buffer : List Nat
  bufferSize : Nat
  position : Nat
  limit : Nat
  historyStart : Nat
deriving Repr, DecidableEq

/-- Modelled from the spec: DtSetLimit from the missing dictbuf.c —
fails if position + chunkSize > bufferSize, otherwise sets
limit = position + chunkSize and historyStart = position. -/
def dtSetLimit (d : DictState) (chunkSize : Nat) : Option DictState :=
  if d.position + chunkSize > d.bufferSize then none
  else some { d with limit := d.position + chunkSize, historyStart := d.position }

/-- Modelled from the spec: DtPutSymbol from the missing dictbuf.c —
writes one byte at the current position and advances it. -/
def dtPutSymbol (d : DictState) (b : Nat) : DictState :=
  { d with buffer := d.buffer.set d.position b, position := d.position + 1 }

/-- Modelled from the spec: DtIsComplete from the missing dictbuf.c —
reports whether the position reached the chunk limit, together with
the number of bytes produced since the chunk start. -/
def dtIsComplete (d : DictState) : Bool × Nat :=
  (d.position == d.limit, d.position - d.historyStart)

/-- Modelled from the spec: RcIsComplete from the missing rangedec.c —
reports whether the code word is zero, together with the number of
input bytes consumed since the chunk start (the cursor moved from
rcStart to curOff). -/
def rcIsComplete (rcCode rcStart curOff : Nat) : Bool × Nat :=
  (rcCode == 0, curOff - rcStart)

/-- Modelled from the spec: RcInitialize from the missing rangedec.c —
reads 5 bytes through the shared input cursor, requires the first to
be zero, and loads the next four big-endian into the code word.
Returns the code word and the new cursor offset. -/
def rcInitialize (inp : List Nat) (inSize off : Nat) : Option (Nat × Nat) :=
  let r := bfSeek ⟨inp, off, inSize⟩ 5
  if r.ok = false then none
  else if ¬ (byteAt inp off = 0) then none
  else some (byteAt inp (off + 1) * 16777216 + byteAt inp (off + 2) * 65536 +
             byteAt inp (off + 3) * 256 + byteAt inp (off + 4), r.st.offset)

/-- Modelled from the spec: LzInitialize from the missing lzmadec.c
validates the LZMA property byte, which must be
(pb * 5 + lp) * 9 + lc = 93 (0x5D); the accompanying reset of the
engine internal state is applied by the caller. -/
def lzInitialize (prop : Nat) : Bool := prop == 93

/-- Modelled from the spec: the constant LZMA_MAX_SEQUENCE_SIZE from
the missing lzma2dec.h — the largest number of input bytes a single
LZMA sequence can consume; a chunk shorter than this is rejected.  The
exact value is immaterial to the theorems below. -/
def LZMA_MAX_SEQUENCE_SIZE : Nat := 21

/-- CHUNK_STATE from lzma2dec.c: the uint32 RawSize and uint16
CompressedSize of the chunk being decoded (process-global, retained
across chunks). -/
structure ChunkState where
  rawSize : Nat
  compressedSize : Nat
deriving Repr, DecidableEq

/-- Bit 7 of the LZMA2 control byte (IsLzma).  The LZMA2_CONTROL_BYTE
bitfields come from the missing lzma2dec.h, modelled from the spec. -/
def isLzmaBit (b : Nat) : Nat := b / 128 % 2

/-- Bits 6:5 of the LZMA2 control byte (Lzma.ResetState): 0 no reset,
1 state reset, 2 property reset, 3 full reset. -/
def resetStateBits (b : Nat) : Nat := b / 32 % 4

/-- Bits 4:0 of the LZMA2 control byte (Lzma.RawSize): the high bits
of the uncompressed chunk size. -/
def ctrlRawBits (b : Nat) : Nat := b % 32

/-- The size computation of Lz2DecodeStream (lzma2dec.c lines
125-141): for an LZMA chunk, RawSize starts from the control-byte high
bits shifted left 16 and CompressedSize is rebuilt from info bytes 2
and 3 in the uint16 field; for an uncompressed chunk RawSize starts at
0 and CompressedSize is left over from the previous chunk; both kinds
then add info0 << 8 and info1 + 1 into the uint32 RawSize. -/
def parseChunkSizes (prev : ChunkState) (c i0 i1 i2 i3 : Nat) : ChunkState :=
  if isLzmaBit c = 1 then
    { rawSize := (ctrlRawBits c * 65536 + i0 * 256 + i1 + 1) % U32,
      compressedSize := ((i2 * 256) % U16 + i3 + 1) % U16 }
  else
    { rawSize := (i0 * 256 + i1 + 1) % U32,
      compressedSize := prev.compressedSize }

/-- The decoder state visible to the LZMA engine: the input cursor
offset, the dictionary, the range coder code word, and the engine
internal state (the probability model and machine state of the
missing lzmadec.c), abstracted as the type parameter. -/
structure EngState (σ : Type) where
  inOff : Nat
  dict : DictState
  rcCode : Nat
  lzs : σ
deriving Repr, DecidableEq

/-- Lz2DecodeChunk from lzma2dec.c: require the chunk to have at least
LZMA_MAX_SEQUENCE_SIZE compressed bytes, run the LZMA engine (LzDecode
from the missing lzmadec.c, abstracted as eng), then require the range
coder to be complete having consumed exactly Chunk.CompressedSize
bytes since the chunk start, and the dictionary to be complete having
produced exactly Chunk.RawSize bytes; on success BytesProcessed grows
by the produced bytes (uint32). -/
def lz2DecodeChunk {σ : Type} (eng : EngState σ → Option (EngState σ))
    (chunk : ChunkState) (rcStart : Nat) (st : EngState σ) (bytesProcessed : Nat) :
    Option (EngState σ × Nat) :=
  if chunk.compressedSize < LZMA_MAX_SEQUENCE_SIZE then none
  else
    match eng st with
    | none => none
    | some st1 =>
      if ¬ ((rcIsComplete st1.rcCode rcStart st1.inOff).1 = true ∧
            (rcIsComplete st1.rcCode rcStart st1.inOff).2 = chunk.compressedSize) then none
      else if ¬ ((dtIsComplete st1.dict).1 = true ∧
            (dtIsComplete st1.dict).2 = chunk.rawSize) then none
      else some (st1, (bytesProcessed + (dtIsComplete st1.dict).2) % U32)

/-- Outcome of one iteration of the Lz2DecodeStream while loop:
return true (with BytesProcessed and the final state), return false or
break, or continue to the next chunk. -/
inductive IterOut (σ : Type) where
  | done : Nat → EngState σ → ChunkState → IterOut σ
  | fail : IterOut σ
  | next : EngState σ → ChunkState → Nat → IterOut σ
deriving Repr, DecidableEq

/-- The copy loop of the uncompressed-chunk branch: DtPutSymbol for
each of the n bytes of the reserved input view. -/
def dtPutBytes (inp : List Nat) (d : DictState) (viewOff n : Nat) : DictState :=
  (List.range n).foldl (fun acc i => dtPutSymbol acc (byteAt inp (viewOff + i))) d

/-- The tail of one Lz2DecodeStream iteration, after reset handling:
in size-query mode add RawSize to the tally and seek past the chunk
data, ignoring seek failure; otherwise an uncompressed chunk is copied
into the dictionary byte by byte, and an LZMA chunk runs through
RcInitialize and Lz2DecodeChunk. -/
def lz2IterTail {σ : Type} (inp : List Nat) (inSize : Nat)
    (eng : EngState σ → Option (EngState σ)) (getSizeOnly : Bool) (ctrl : Nat)
    (chunk : ChunkState) (st : EngState σ) (bp : Nat) : IterOut σ :=
  if getSizeOnly = true then
    IterOut.next
      { st with inOff := (bfSeek ⟨inp, st.inOff, inSize⟩
          (if isLzmaBit ctrl = 1 then chunk.compressedSize else chunk.rawSize)).st.offset }
      chunk ((bp + chunk.rawSize) % U32)
  else if isLzmaBit ctrl = 0 then
    if (bfSeek ⟨inp, st.inOff, inSize⟩ chunk.rawSize).ok = false then IterOut.fail
    else
      IterOut.next
        { st with
            inOff := (bfSeek ⟨inp, st.inOff, inSize⟩ chunk.rawSize).st.offset,
            dict := dtPutBytes inp st.dict st.inOff chunk.rawSize }
        chunk ((bp + chunk.rawSize) % U32)
  else
    match rcInitialize inp inSize st.inOff with
    | none => IterOut.fail
    | some (code0, off5) =>
      match lz2DecodeChunk eng chunk st.inOff
          { st with inOff := off5, rcCode := code0 } bp with
      | none => IterOut.fail
      | some (st1, bp1) => IterOut.next st1 chunk bp1

/-- The reset handling of one Lz2DecodeStream iteration: on a full or
property reset read the property byte and validate it (LzInitialize,
which also resets the engine internal state to initLz); a state-only
reset is rejected; no reset falls through. -/
def lz2IterReset {σ : Type} (inp : List Nat) (inSize : Nat) (initLz : σ)
    (eng : EngState σ → Option (EngState σ)) (getSizeOnly : Bool) (ctrl : Nat)
    (chunk : ChunkState) (st : EngState σ) (bp : Nat) : IterOut σ :=
  if resetStateBits ctrl = 3 ∨ resetStateBits ctrl = 2 then
    if (bfRead ⟨inp, st.inOff, inSize⟩).ok = false then IterOut.fail
    else if lzInitialize (bfRead ⟨inp, st.inOff, inSize⟩).byte = false then IterOut.fail
    else lz2IterTail inp inSize eng getSizeOnly ctrl chunk
      { st with inOff := (bfRead ⟨inp, st.inOff, inSize⟩).st.offset, lzs := initLz } bp
  else if ¬ (resetStateBits ctrl = 0) then IterOut.fail
  else lz2IterTail inp inSize eng getSizeOnly ctrl chunk st bp

/-- The DtSetLimit step of one Lz2DecodeStream iteration: the limit is
only set (and only able to fail) outside size-query mode. -/
def lz2IterLimit {σ : Type} (inp : List Nat) (inSize : Nat) (initLz : σ)
    (eng : EngState σ → Option (EngState σ)) (getSizeOnly : Bool) (ctrl : Nat)
    (chunk : ChunkState) (st : EngState σ) (bp : Nat) : IterOut σ :=
  if getSizeOnly = false then
    match dtSetLimit st.dict chunk.rawSize with
    | none => IterOut.fail
    | some d1 =>
      lz2IterReset inp inSize initLz eng getSizeOnly ctrl chunk { st with dict := d1 } bp
  else lz2IterReset inp inSize initLz eng getSizeOnly ctrl chunk st bp

/-- One iteration of the Lz2DecodeStream while loop from lzma2dec.c:
read the control byte (read failure exits the loop, which returns
false), succeed on control byte zero, reserve the 4 or 2 info bytes,
compute the chunk sizes, reserve output space through DtSetLimit
unless in size-query mode, then handle resets and the chunk body. -/
def lz2Iter {σ : Type} (inp : List Nat) (inSize : Nat) (initLz : σ)
    (eng : EngState σ → Option (EngState σ)) (getSizeOnly : Bool)
    (st : EngState σ) (chunk : ChunkState) (bp : Nat) : IterOut σ :=
  if (bfRead ⟨inp, st.inOff, inSize⟩).ok = false then IterOut.fail
  else
    if (bfRead ⟨inp, st.inOff, inSize⟩).byte = 0 then
      IterOut.done bp { st with inOff := (bfRead ⟨inp, st.inOff, inSize⟩).st.offset } chunk
    else
      if (bfSeek ⟨inp, (bfRead ⟨inp, st.inOff, inSize⟩).st.offset, inSize⟩
            (if isLzmaBit (bfRead ⟨inp, st.inOff, inSize⟩).byte = 1 then 4 else 2)).ok
          = false then IterOut.fail
      else
        lz2IterLimit inp inSize initLz eng getSizeOnly
          (bfRead ⟨inp, st.inOff, inSize⟩).byte
          (parseChunkSizes chunk (bfRead ⟨inp, st.inOff, inSize⟩).byte
            (byteAt inp (bfRead ⟨inp, st.inOff, inSize⟩).st.offset)
            (byteAt inp ((bfRead ⟨inp, st.inOff, inSize⟩).st.offset + 1))
            (byteAt inp ((bfRead ⟨inp, st.inOff, inSize⟩).st.offset + 2))
            (byteAt inp ((bfRead ⟨inp, st.inOff, inSize⟩).st.offset + 3)))
          { st with
              inOff := (bfSeek ⟨inp, (bfRead ⟨inp, st.inOff, inSize⟩).st.offset, inSize⟩
                (if isLzmaBit (bfRead ⟨inp, st.inOff, inSize⟩).byte = 1 then 4 else 2)).st.offset }
          bp

/-- Lz2DecodeStream from lzma2dec.c: the while loop, with fuel
bounding the number of iterations (every iteration consumes at least
one input byte, so any fuel above the input size is never exhausted on
terminating runs).  Returns BytesProcessed and the final state on the
success path (control byte zero); every failure path returns none. -/
def lz2DecodeStream {σ : Type} (inp : List Nat) (inSize : Nat) (initLz : σ)
    (eng : EngState σ → Option (EngState σ)) (getSizeOnly : Bool) :
    Nat → EngState σ → ChunkState → Nat → Option (Nat × EngState σ)
  | 0, _, _, _ => none
  | fuel + 1, st, chunk, bp =>
    match lz2Iter inp inSize initLz eng getSizeOnly st chunk bp with
    | IterOut.done n stE _ => some (n, stE)
    | IterOut.fail => none
    | IterOut.next st1 chunk1 bp1 =>
      lz2DecodeStream inp inSize initLz eng getSizeOnly fuel st1 chunk1 bp1

/-- The entry of Lz2DecodeStream: BytesProcessed starts at zero, and
the process-global chunk state starts zeroed. -/
def lz2DecodeStreamTop {σ : Type} (inp : List Nat) (inSize : Nat) (initLz : σ)
    (eng : EngState σ → Option (EngState σ)) (getSizeOnly : Bool) (fuel : Nat)
    (st : EngState σ) : Option (Nat × EngState σ) :=
  lz2DecodeStream inp inSize initLz eng getSizeOnly fuel st ⟨0, 0⟩ 0

theorem rcIsComplete_fst (rcCode rcStart curOff : Nat) :
    (rcIsComplete rcCode rcStart curOff).1 = (rcCode == 0) := rfl

theorem rcIsComplete_snd (rcCode rcStart curOff : Nat) :
    (rcIsComplete rcCode rcStart curOff).2 = curOff - rcStart := rfl

theorem dtIsComplete_fst (d : DictState) :
    (dtIsComplete d).1 = (d.position == d.limit) := rfl

theorem dtIsComplete_snd (d : DictState) :
    (dtIsComplete d).2 = d.position - d.historyStart := rfl

/-- Invariant of a successful Lz2DecodeChunk call: the chunk passed
the minimum-size check, the engine ran, and the two completion checks
pinned the cursor movement and the dictionary production. -/
theorem lz2DecodeChunk_inv {σ : Type} (eng : EngState σ → Option (EngState σ))
    (chunk : ChunkState) (rcStart : Nat) (st : EngState σ) (bp : Nat)
    (st1 : EngState σ) (bp1 : Nat)
    (h : lz2DecodeChunk eng chunk rcStart st bp = some (st1, bp1)) :
    eng st = some st1 ∧
    LZMA_MAX_SEQUENCE_SIZE ≤ chunk.compressedSize ∧
    st1.rcCode = 0 ∧
    st1.inOff - rcStart = chunk.compressedSize ∧
    st1.dict.position = st1.dict.limit ∧
    st1.dict.position - st1.dict.historyStart = chunk.rawSize ∧
    bp1 = (bp + chunk.rawSize) % U32 := by
  unfold lz2DecodeChunk at h
  by_cases h0 : chunk.compressedSize < LZMA_MAX_SEQUENCE_SIZE
  · rw [if_pos h0] at h
    exact absurd h (by simp)
  · rw [if_neg h0] at h
    cases heng : eng st with
    | none =>
      rw [heng] at h
      exact absurd h (by simp)
    | some s2 =>
      rw [heng] at h
      dsimp only at h
      by_cases h1 : ¬ ((rcIsComplete s2.rcCode rcStart s2.inOff).1 = true ∧
          (rcIsComplete s2.rcCode rcStart s2.inOff).2 = chunk.compressedSize)
      · rw [if_pos h1] at h
        exact absurd h (by simp)
      · rw [if_neg h1] at h
        by_cases h2 : ¬ ((dtIsComplete s2.dict).1 = true ∧
            (dtIsComplete s2.dict).2 = chunk.rawSize)
        · rw [if_pos h2] at h
          exact absurd h (by simp)
        · rw [if_neg h2] at h
          rw [not_not] at h1 h2
          have hpair := Option.some.inj h
          have hst : s2 = st1 := congrArg Prod.fst hpair
          have hbp : (bp + (dtIsComplete s2.dict).2) % U32 = bp1 :=
            congrArg Prod.snd hpair
          subst hst
          have hcode : s2.rcCode = 0 := by
            have hx := h1.1
            rw [rcIsComplete_fst] at hx
            exact eq_of_beq hx
          have hrc : s2.inOff - rcStart = chunk.compressedSize := by
            have hx := h1.2
            rwa [rcIsComplete_snd] at hx
          have hdt1 : s2.dict.position = s2.dict.limit := by
            have hx := h2.1
            rw [dtIsComplete_fst] at hx
            exact eq_of_beq hx
          have hdt2 : s2.dict.position - s2.dict.historyStart = chunk.rawSize := by
            have hx := h2.2
            rwa [dtIsComplete_snd] at hx
          refine ⟨rfl, by omega, hcode, hrc, hdt1, hdt2, ?_⟩
          have hx := hbp
          rw [dtIsComplete_snd, hdt2] at hx
          exact hx.symm

/-- C1: Lz2DecodeChunk succeeds only if, after the LZMA engine ran,
the range coder reports completion (code word 0) having consumed
exactly Chunk.CompressedSize input bytes since the chunk start, and
the dictionary reports completion having produced exactly
Chunk.RawSize bytes since the chunk start; BytesProcessed then grows
by exactly Chunk.RawSize in uint32 arithmetic.  If either count
differs, the chunk decode fails, as the contrapositive states. -/
theorem c1_chunk_end_checks {σ : Type} (eng : EngState σ → Option (EngState σ))
    (chunk : ChunkState) (rcStart : Nat) (st : EngState σ) (bp : Nat)
    (st1 : EngState σ) (bp1 : Nat)
    (h : lz2DecodeChunk eng chunk rcStart st bp = some (st1, bp1)) :
    st1.rcCode = 0 ∧
    st1.inOff - rcStart = chunk.compressedSize ∧
    st1.dict.position = st1.dict.limit ∧
    st1.dict.position - st1.dict.historyStart = chunk.rawSize ∧
    bp1 = (bp + chunk.rawSize) % U32 := by
  have hi := lz2DecodeChunk_inv eng chunk rcStart st bp st1 bp1 h
  exact ⟨hi.2.2.1, hi.2.2.2.1, hi.2.2.2.2.1, hi.2.2.2.2.2.1, hi.2.2.2.2.2.2⟩

/-- C1 witness: the end-of-chunk checks applied to a concrete engine
run that consumes 21 input bytes and produces 3 output bytes. -/
theorem c1_chunk_end_checks_w :
    (⟨21, ⟨[5, 5, 5], 3, 3, 3, 0⟩, 0, ()⟩ : EngState Unit).rcCode = 0 ∧
    (⟨21, ⟨[5, 5, 5], 3, 3, 3, 0⟩, 0, ()⟩ : EngState Unit).inOff - 0 =
      (⟨3, 21⟩ : ChunkState).compressedSize ∧
    (⟨21, ⟨[5, 5, 5], 3, 3, 3, 0⟩, 0, ()⟩ : EngState Unit).dict.position =
      (⟨21, ⟨[5, 5, 5], 3, 3, 3, 0⟩, 0, ()⟩ : EngState Unit).dict.limit ∧
    (⟨21, ⟨[5, 5, 5], 3, 3, 3, 0⟩, 0, ()⟩ : EngState Unit).dict.position -
      (⟨21, ⟨[5, 5, 5], 3, 3, 3, 0⟩, 0, ()⟩ : EngState Unit).dict.historyStart =
      (⟨3, 21⟩ : ChunkState).rawSize ∧
    3 = (0 + (⟨3, 21⟩ : ChunkState).rawSize) % U32 :=
  c1_chunk_end_checks (fun _ => some ⟨21, ⟨[5, 5, 5], 3, 3, 3, 0⟩, 0, ()⟩)
    ⟨3, 21⟩ 0 ⟨0, ⟨[5, 5, 5], 3, 0, 0, 0⟩, 7, ()⟩ 0
    ⟨21, ⟨[5, 5, 5], 3, 3, 3, 0⟩, 0, ()⟩ 3 (by decide)

/-- C4 counterexample: with info bytes 2 and 3 both 0xFF, the claimed
compressed size ((info2 << 8) | info3) + 1 is 0x10000, which does not
fit the uint16 Chunk.CompressedSize field; the code stores 0. -/
theorem c4_chunk_sizes_cex :
    (parseChunkSizes ⟨0, 0⟩ 0x80 0 0 0xFF 0xFF).compressedSize = 0 ∧
    ((0xFF <<< 8) ||| 0xFF) + 1 = 65536 := by
  constructor
  · decide
  · decide

/-- C4 (amended): for every LZMA chunk (control byte with the high bit
set) and byte-valued info bytes, the framer computes
RawSize = ((control mod 32) * 2^16 + info0 * 2^8 + info1) + 1 exactly
(the fields are disjoint, so the bitwise ors of the claim coincide
with sums), and CompressedSize = ((info2 * 2^8 + info3) + 1) reduced
mod 2^16, the width of the uint16 field; the reduction matters exactly
when info2 = info3 = 0xFF. -/
theorem c4_chunk_sizes (prev : ChunkState) (c i0 i1 i2 i3 : Nat)
    (hc : 128 ≤ c) (hcb : c < 256) (h0 : i0 < 256) (h1 : i1 < 256)
    (h2 : i2 < 256) (h3 : i3 < 256) :
    (parseChunkSizes prev c i0 i1 i2 i3).rawSize =
      ((c % 32) * 65536 + i0 * 256 + i1) + 1 ∧
    (parseChunkSizes prev c i0 i1 i2 i3).compressedSize =
      ((i2 * 256 + i3) + 1) % U16 := by
  have hbit : isLzmaBit c = 1 := by
    unfold isLzmaBit
    omega
  unfold parseChunkSizes
  rw [if_pos hbit]
  unfold ctrlRawBits
  constructor
  · show (c % 32 * 65536 + i0 * 256 + i1 + 1) % U32 = c % 32 * 65536 + i0 * 256 + i1 + 1
    unfold U32
    omega
  · show ((i2 * 256) % U16 + i3 + 1) % U16 = (i2 * 256 + i3 + 1) % U16
    unfold U16
    omega

/-- C4 witness: the amended size computation at control byte 0x80 and
info bytes 1 2 3 4. -/
theorem c4_chunk_sizes_w :
    (parseChunkSizes ⟨0, 0⟩ 128 1 2 3 4).rawSize = ((128 % 32) * 65536 + 1 * 256 + 2) + 1 ∧
    (parseChunkSizes ⟨0, 0⟩ 128 1 2 3 4).compressedSize = ((3 * 256 + 4) + 1) % U16 :=
  c4_chunk_sizes ⟨0, 0⟩ 128 1 2 3 4 (by decide) (by decide) (by decide) (by decide)
    (by decide) (by decide)

/-- C9 counterexample: the one-byte LZMA2 payload 00 is accepted, not
rejected: Lz2DecodeStream returns success with zero bytes processed,
because the zero control byte is its only success path. -/
theorem c9_empty_payload_cex :
    lz2DecodeStreamTop [0] 1 () (fun _ => none) false 1 ⟨0, ⟨[], 0, 0, 0, 0⟩, 0, ()⟩ =
      some (0, ⟨1, ⟨[], 0, 0, 0, 0⟩, 0, ()⟩) := by
  decide

/-- C9 (amended): in either mode, when the next control byte is
readable and zero, Lz2DecodeStream immediately succeeds, returning the
bytes processed so far and advancing the cursor one byte: a payload
beginning with the end-of-stream control byte 0x00 is accepted, with
zero bytes of output when it is the whole payload. -/
theorem c9_zero_control_succeeds {σ : Type} (inp : List Nat) (inSize : Nat) (initLz : σ)
    (eng : EngState σ → Option (EngState σ)) (gso : Bool) (fuel : Nat)
    (st : EngState σ) (chunk : ChunkState) (bp : Nat)
    (hoff : st.inOff < inSize) (hsz : inSize + 1 < U32)
    (hb : byteAt inp st.inOff = 0) :
    lz2DecodeStream inp inSize initLz eng gso (fuel + 1) st chunk bp =
      some (bp, { st with inOff := st.inOff + 1 }) := by
  have hread := bfRead_mid inp st.inOff inSize hoff hsz
  unfold lz2DecodeStream lz2Iter
  rw [hread]
  dsimp only
  rw [if_neg (by simp : ¬ (true = false))]
  rw [if_pos hb]

/-- C9 witness: the amended theorem applied in size-query mode with a
nonzero tally. -/
theorem c9_zero_control_succeeds_w :
    lz2DecodeStream [0, 7] 2 () (fun _ => none) true 3 ⟨0, ⟨[], 0, 0, 0, 0⟩, 0, ()⟩
        ⟨0, 0⟩ 5 =
      some (5, ⟨1, ⟨[], 0, 0, 0, 0⟩, 0, ()⟩) :=
  c9_zero_control_succeeds [0, 7] 2 () (fun _ => none) true 2
    ⟨0, ⟨[], 0, 0, 0, 0⟩, 0, ()⟩ ⟨0, 0⟩ 5 (by decide) (by decide) (by decide)

/-- C2 counterexample: the claim says every chunk with control byte
0x01 or 0x02 makes Lz2DecodeStream fail in both modes.  On the payload
01 00 00 41 00 (an uncompressed chunk of one byte 0x41 followed by the
end marker) the stream decodes successfully in normal mode, copying
the byte into the dictionary, and succeeds in size-query mode as well,
reporting one byte. -/
theorem c2_uncompressed_accepted_cex :
    lz2DecodeStreamTop [1, 0, 0, 65, 0] 5 () (fun _ => none) false 2
        ⟨0, ⟨[0], 1, 0, 0, 0⟩, 0, ()⟩ = some (1, ⟨5, ⟨[65], 1, 1, 1, 0⟩, 0, ()⟩) ∧
    lz2DecodeStreamTop [1, 0, 0, 65, 0] 5 () (fun _ => none) true 2
        ⟨0, ⟨[], 0, 0, 0, 0⟩, 0, ()⟩ = some (1, ⟨5, ⟨[], 0, 0, 0, 0⟩, 0, ()⟩) := by
  refine ⟨by decide, by decide⟩

/-- C2 (amended): a chunk with control byte 0x01 or 0x02 (an
uncompressed chunk) is not rejected.  When the chunk header and its
RawSize = info0 * 2^8 + info1 + 1 data bytes fit the input, the
iteration continues to the next chunk with the cursor past the data
and RawSize added to BytesProcessed, in both modes: in normal decode
mode (given dictionary space) the data bytes are copied into the
dictionary, and in size-query mode they are skipped with the
dictionary untouched. -/
theorem c2_uncompressed_processed {σ : Type} (inp : List Nat) (inSize : Nat) (initLz : σ)
    (eng : EngState σ → Option (EngState σ)) (st : EngState σ) (chunk : ChunkState)
    (bp : Nat) (hsz : inSize + 1 < U32)
    (hctrl : byteAt inp st.inOff = 1 ∨ byteAt inp st.inOff = 2)
    (hin : st.inOff + 3 + (byteAt inp (st.inOff + 1) * 256 + byteAt inp (st.inOff + 2) + 1)
      ≤ inSize)
    (hdict : st.dict.position +
      (byteAt inp (st.inOff + 1) * 256 + byteAt inp (st.inOff + 2) + 1) ≤ st.dict.bufferSize) :
    lz2Iter inp inSize initLz eng false st chunk bp =
      IterOut.next
        { st with
            inOff := st.inOff + 3 +
              (byteAt inp (st.inOff + 1) * 256 + byteAt inp (st.inOff + 2) + 1),
            dict := dtPutBytes inp
              { st.dict with
                  limit := st.dict.position +
                    (byteAt inp (st.inOff + 1) * 256 + byteAt inp (st.inOff + 2) + 1),
                  historyStart := st.dict.position }
              (st.inOff + 3)
              (byteAt inp (st.inOff + 1) * 256 + byteAt inp (st.inOff + 2) + 1) }
        ⟨byteAt inp (st.inOff + 1) * 256 + byteAt inp (st.inOff + 2) + 1,
          chunk.compressedSize⟩
        ((bp + (byteAt inp (st.inOff + 1) * 256 + byteAt inp (st.inOff + 2) + 1)) % U32) ∧
    lz2Iter inp inSize initLz eng true st chunk bp =
      IterOut.next
        { st with
            inOff := st.inOff + 3 +
              (byteAt inp (st.inOff + 1) * 256 + byteAt inp (st.inOff + 2) + 1) }
        ⟨byteAt inp (st.inOff + 1) * 256 + byteAt inp (st.inOff + 2) + 1,
          chunk.compressedSize⟩
        ((bp + (byteAt inp (st.inOff + 1) * 256 + byteAt inp (st.inOff + 2) + 1)) % U32) := by
  have hb1 := byteAt_lt inp (st.inOff + 1)
  have hb2 := byteAt_lt inp (st.inOff + 2)
  have hb0 : ¬ (byteAt inp st.inOff = 0) := by
    rcases hctrl with h | h <;> rw [h] <;> decide
  have hlz : isLzmaBit (byteAt inp st.inOff) = 0 := by
    rcases hctrl with h | h <;> rw [h] <;> decide
  have hrs : resetStateBits (byteAt inp st.inOff) = 0 := by
    rcases hctrl with h | h <;> rw [h] <;> decide
  have hoff : st.inOff < inSize := by omega
  have hread := bfRead_mid inp st.inOff inSize hoff hsz
  have hseek2 := bfSeek_in_bounds inp (st.inOff + 1) inSize 2 (by omega) (by omega)
  have hseekD := bfSeek_in_bounds inp (st.inOff + 3) inSize
    (byteAt inp (st.inOff + 1) * 256 + byteAt inp (st.inOff + 2) + 1) (by omega) (by omega)
  have hpc : parseChunkSizes chunk (byteAt inp st.inOff) (byteAt inp (st.inOff + 1))
      (byteAt inp (st.inOff + 1 + 1)) (byteAt inp (st.inOff + 1 + 2))
      (byteAt inp (st.inOff + 1 + 3)) =
      ⟨byteAt inp (st.inOff + 1) * 256 + byteAt inp (st.inOff + 2) + 1,
        chunk.compressedSize⟩ := by
    unfold parseChunkSizes
    rw [if_neg (by omega : ¬ (isLzmaBit (byteAt inp st.inOff) = 1))]
    rw [show st.inOff + 1 + 1 = st.inOff + 2 by omega]
    rw [Nat.mod_eq_of_lt (show byteAt inp (st.inOff + 1) * 256 +
      byteAt inp (st.inOff + 2) + 1 < U32 by unfold U32; omega)]
  have hdl : dtSetLimit st.dict
      (byteAt inp (st.inOff + 1) * 256 + byteAt inp (st.inOff + 2) + 1) =
      some { st.dict with
        limit := st.dict.position +
          (byteAt inp (st.inOff + 1) * 256 + byteAt inp (st.inOff + 2) + 1),
        historyStart := st.dict.position } := by
    unfold dtSetLimit
    rw [if_neg (by omega)]
  constructor
  · unfold lz2Iter
    rw [hread]
    dsimp only
    rw [if_neg (by simp : ¬ (true = false))]
    rw [if_neg hb0]
    rw [hlz]
    rw [if_neg (by decide : ¬ ((0 : Nat) = 1))]
    rw [hseek2]
    dsimp only
    rw [if_neg (by simp : ¬ (true = false))]
    rw [hpc]
    unfold lz2IterLimit
    rw [if_pos rfl]
    dsimp only
    rw [hdl]
    dsimp only
    unfold lz2IterReset
    rw [hrs]
    rw [if_neg (by decide : ¬ ((0 : Nat) = 3 ∨ (0 : Nat) = 2))]
    rw [if_neg (by decide : ¬ ¬ ((0 : Nat) = 0))]
    unfold lz2IterTail
    rw [if_neg (by simp : ¬ (false = true))]
    rw [hlz]
    rw [if_pos rfl]
    dsimp only
    rw [show st.inOff + 1 + 2 = st.inOff + 3 by omega]
    rw [hseekD]
    dsimp only
    rw [if_neg (by simp : ¬ (true = false))]
  · unfold lz2Iter
    rw [hread]
    dsimp only
    rw [if_neg (by simp : ¬ (true = false))]
    rw [if_neg hb0]
    rw [hlz]
    rw [if_neg (by decide : ¬ ((0 : Nat) = 1))]
    rw [hseek2]
    dsimp only
    rw [if_neg (by simp : ¬ (true = false))]
    rw [hpc]
    unfold lz2IterLimit
    rw [if_neg (by simp : ¬ (true = false))]
    unfold lz2IterReset
    rw [hrs]
    rw [if_neg (by decide : ¬ ((0 : Nat) = 3 ∨ (0 : Nat) = 2))]
    rw [if_neg (by decide : ¬ ¬ ((0 : Nat) = 0))]
    unfold lz2IterTail
    rw [if_pos rfl]
    dsimp only
    rw [hlz]
    rw [if_neg (by decide : ¬ ((0 : Nat) = 1))]
    rw [show st.inOff + 1 + 2 = st.inOff + 3 by omega]
    rw [hseekD]

/-- C2 witness: the amended theorem applied to a two-byte uncompressed
chunk with control byte 0x02 in size-query mode. -/
theorem c2_uncompressed_processed_w :
    lz2Iter [2, 0, 1, 65, 66] 5 () (fun _ => none) true
        ⟨0, ⟨[0, 0], 2, 0, 0, 0⟩, 0, ()⟩ ⟨9, 9⟩ 0 =
      IterOut.next ⟨5, ⟨[0, 0], 2, 0, 0, 0⟩, 0, ()⟩ ⟨2, 9⟩ 2 :=
  (c2_uncompressed_processed [2, 0, 1, 65, 66] 5 () (fun _ => none)
    ⟨0, ⟨[0, 0], 2, 0, 0, 0⟩, 0, ()⟩ ⟨9, 9⟩ 0 (by decide) (by decide) (by decide)
    (by decide)).2

/-! ### C3: size-query mode agrees with full decode -/

theorem lz2IterTail_ne_done {σ : Type} {inp : List Nat} {inSize : Nat}
    {eng : EngState σ → Option (EngState σ)} {gso : Bool} {ctrl : Nat}
    {ch : ChunkState} {stY : EngState σ} {bp : Nat} {n : Nat} {stE : EngState σ}
    {ch2 : ChunkState}
    (h : lz2IterTail inp inSize eng gso ctrl ch stY bp = IterOut.done n stE ch2) :
    False := by
  unfold lz2IterTail at h
  repeat' split at h
  all_goals exact IterOut.noConfusion h

theorem lz2IterReset_ne_done {σ : Type} {inp : List Nat} {inSize : Nat} {initLz : σ}
    {eng : EngState σ → Option (EngState σ)} {gso : Bool} {ctrl : Nat}
    {ch : ChunkState} {stY : EngState σ} {bp : Nat} {n : Nat} {stE : EngState σ}
    {ch2 : ChunkState}
    (h : lz2IterReset inp inSize initLz eng gso ctrl ch stY bp = IterOut.done n stE ch2) :
    False := by
  unfold lz2IterReset at h
  repeat' split at h
  all_goals first
    | exact IterOut.noConfusion h
    | exact lz2IterTail_ne_done h

theorem lz2IterLimit_ne_done {σ : Type} {inp : List Nat} {inSize : Nat} {initLz : σ}
    {eng : EngState σ → Option (EngState σ)} {gso : Bool} {ctrl : Nat}
    {ch : ChunkState} {stY : EngState σ} {bp : Nat} {n : Nat} {stE : EngState σ}
    {ch2 : ChunkState}
    (h : lz2IterLimit inp inSize initLz eng gso ctrl ch stY bp = IterOut.done n stE ch2) :
    False := by
  unfold lz2IterLimit at h
  repeat' split at h
  all_goals first
    | exact IterOut.noConfusion h
    | exact lz2IterReset_ne_done h

/-- The tail of a decode-mode iteration that continues is mirrored by
the size-query tail: the cursor lands at the same offset and the tally
grows by the same amount, while the query side leaves the dictionary,
code word, and engine state alone. -/
theorem c3_tail {σ : Type} {inp : List Nat} {inSize : Nat}
    {eng : EngState σ → Option (EngState σ)}
    (hEng : ∀ s s1, eng s = some s1 → s1.inOff ≤ inSize) (hsz : inSize < U32)
    {ctrl : Nat} {ch : ChunkState} {stY : EngState σ} {bp : Nat}
    (d : DictState) (c : Nat) (l : σ) {st1 : EngState σ} {ch1 : ChunkState} {bp1 : Nat}
    (h : lz2IterTail inp inSize eng false ctrl ch stY bp = IterOut.next st1 ch1 bp1) :
    lz2IterTail inp inSize eng true ctrl ch ⟨stY.inOff, d, c, l⟩ bp =
      IterOut.next ⟨st1.inOff, d, c, l⟩ ch1 bp1 := by
  unfold lz2IterTail at h ⊢
  rw [if_neg (by simp : ¬ (false = true))] at h
  rw [if_pos rfl]
  by_cases hlz : isLzmaBit ctrl = 0
  · rw [if_pos hlz] at h
    rw [if_neg (by omega : ¬ (isLzmaBit ctrl = 1))]
    cases hsk : (bfSeek ⟨inp, stY.inOff, inSize⟩ ch.rawSize).ok with
    | false =>
      rw [hsk] at h
      rw [if_pos rfl] at h
      exact absurd h (by simp)
    | true =>
      rw [hsk, if_neg (by simp : ¬ (true = false))] at h
      injection h with ha hb hc
      subst ha
      subst hb
      subst hc
      rfl
  · rw [if_neg hlz] at h
    have hlz1 : isLzmaBit ctrl = 1 := by
      unfold isLzmaBit at hlz ⊢
      omega
    rw [if_pos hlz1]
    cases hrc : rcInitialize inp inSize stY.inOff with
    | none =>
      rw [hrc] at h
      exact absurd h (by simp)
    | some p =>
      obtain ⟨code0, off5⟩ := p
      rw [hrc] at h
      dsimp only at h
      cases hchunk : lz2DecodeChunk eng ch stY.inOff
          { stY with inOff := off5, rcCode := code0 } bp with
      | none =>
        rw [hchunk] at h
        exact absurd h (by simp)
      | some q =>
        obtain ⟨st2, bp2⟩ := q
        rw [hchunk] at h
        dsimp only at h
        obtain ⟨heng, hcs, hq3, hoff2, hq5, hq6, hbp2⟩ :=
          lz2DecodeChunk_inv eng ch stY.inOff
            { stY with inOff := off5, rcCode := code0 } bp st2 bp2 hchunk
        have hle2 : st2.inOff ≤ inSize := hEng _ _ heng
        have hcs0 : 0 < ch.compressedSize := by
          unfold LZMA_MAX_SEQUENCE_SIZE at hcs
          omega
        have hoff3 : stY.inOff + ch.compressedSize = st2.inOff := by omega
        injection h with ha hb hc
        subst ha
        subst hb
        subst hc
        rw [bfSeek_in_bounds inp stY.inOff inSize ch.compressedSize (by omega) (by omega)]
        rw [hoff3, hbp2]

/-- The reset handling of a decode-mode iteration that continues is
mirrored by the size-query iteration, up to the engine internal state
(reset to initLz when a property byte is read). -/
theorem c3_reset_next {σ : Type} {inp : List Nat} {inSize : Nat} {initLz : σ}
    {eng : EngState σ → Option (EngState σ)}
    (hEng : ∀ s s1, eng s = some s1 → s1.inOff ≤ inSize) (hsz : inSize < U32)
    {ctrl : Nat} {ch : ChunkState} {stY : EngState σ} {bp : Nat}
    (d : DictState) (c : Nat) (l : σ) {st1 : EngState σ} {ch1 : ChunkState} {bp1 : Nat}
    (h : lz2IterReset inp inSize initLz eng false ctrl ch stY bp = IterOut.next st1 ch1 bp1) :
    ∃ l1, lz2IterReset inp inSize initLz eng true ctrl ch ⟨stY.inOff, d, c, l⟩ bp =
      IterOut.next ⟨st1.inOff, d, c, l1⟩ ch1 bp1 := by
  unfold lz2IterReset at h ⊢
  dsimp only
  by_cases hrs : resetStateBits ctrl = 3 ∨ resetStateBits ctrl = 2
  · rw [if_pos hrs] at h ⊢
    cases hok2 : (bfRead ⟨inp, stY.inOff, inSize⟩).ok with
    | false =>
      rw [hok2] at h
      rw [if_pos rfl] at h
      exact absurd h (by simp)
    | true =>
      rw [hok2] at h
      rw [if_neg (by simp : ¬ (true = false))] at h ⊢
      by_cases hli : lzInitialize (bfRead ⟨inp, stY.inOff, inSize⟩).byte = false
      · rw [if_pos hli] at h
        exact absurd h (by simp)
      · rw [if_neg hli] at h ⊢
        exact ⟨initLz, c3_tail hEng hsz d c initLz h⟩
  · rw [if_neg hrs] at h ⊢
    by_cases h0 : ¬ (resetStateBits ctrl = 0)
    · rw [if_pos h0] at h
      exact absurd h (by simp)
    · rw [if_neg h0] at h ⊢
      exact ⟨l, c3_tail hEng hsz d c l h⟩

/-- A decode-mode iteration that returns success is mirrored exactly
by the size-query iteration on the same cursor. -/
theorem c3_iter_done {σ : Type} {inp : List Nat} {inSize : Nat} {initLz : σ}
    {eng : EngState σ → Option (EngState σ)}
    {st : EngState σ} {chunk : ChunkState} {bp : Nat}
    (d : DictState) (c : Nat) (l : σ) {n : Nat} {stE : EngState σ} {ch : ChunkState}
    (h : lz2Iter inp inSize initLz eng false st chunk bp = IterOut.done n stE ch) :
    lz2Iter inp inSize initLz eng true ⟨st.inOff, d, c, l⟩ chunk bp =
      IterOut.done n ⟨stE.inOff, d, c, l⟩ ch := by
  unfold lz2Iter at h ⊢
  dsimp only
  cases hok : (bfRead ⟨inp, st.inOff, inSize⟩).ok with
  | false =>
    rw [hok] at h
    rw [if_pos rfl] at h
    exact absurd h (by simp)
  | true =>
    rw [hok] at h
    rw [if_neg (by simp : ¬ (true = false))] at h ⊢
    by_cases hc0 : (bfRead ⟨inp, st.inOff, inSize⟩).byte = 0
    · rw [if_pos hc0] at h ⊢
      injection h with ha hb hc
      subst ha
      subst hb
      subst hc
      rfl
    · rw [if_neg hc0] at h ⊢
      cases hs4 : (bfSeek ⟨inp, (bfRead ⟨inp, st.inOff, inSize⟩).st.offset, inSize⟩
          (if isLzmaBit (bfRead ⟨inp, st.inOff, inSize⟩).byte = 1 then 4 else 2)).ok with
      | false =>
        rw [hs4] at h
        rw [if_pos rfl] at h
        exact absurd h (by simp)
      | true =>
        rw [hs4] at h
        rw [if_neg (by simp : ¬ (true = false))] at h
        exact absurd h (fun hh => (lz2IterLimit_ne_done hh).elim)

set_option maxHeartbeats 1000000 in
/-- A decode-mode iteration that continues is mirrored by the
size-query iteration on the same cursor, up to the engine internal
state. -/
theorem c3_iter_next {σ : Type} {inp : List Nat} {inSize : Nat} {initLz : σ}
    {eng : EngState σ → Option (EngState σ)}
    (hEng : ∀ s s1, eng s = some s1 → s1.inOff ≤ inSize) (hsz : inSize < U32)
    {st : EngState σ} {chunk : ChunkState} {bp : Nat}
    (d : DictState) (c : Nat) (l : σ) {st1 : EngState σ} {ch1 : ChunkState} {bp1 : Nat}
    (h : lz2Iter inp inSize initLz eng false st chunk bp = IterOut.next st1 ch1 bp1) :
    ∃ l1, lz2Iter inp inSize initLz eng true ⟨st.inOff, d, c, l⟩ chunk bp =
      IterOut.next ⟨st1.inOff, d, c, l1⟩ ch1 bp1 := by
  unfold lz2Iter at h ⊢
  dsimp only
  cases hok : (bfRead ⟨inp, st.inOff, inSize⟩).ok with
  | false =>
    rw [hok] at h
    rw [if_pos rfl] at h
    exact absurd h (by simp)
  | true =>
    rw [hok] at h
    rw [if_neg (by simp : ¬ (true = false))] at h ⊢
    by_cases hc0 : (bfRead ⟨inp, st.inOff, inSize⟩).byte = 0
    · rw [if_pos hc0] at h
      exact absurd h (by simp)
    · rw [if_neg hc0] at h ⊢
      cases hs4 : (bfSeek ⟨inp, (bfRead ⟨inp, st.inOff, inSize⟩).st.offset, inSize⟩
          (if isLzmaBit (bfRead ⟨inp, st.inOff, inSize⟩).byte = 1 then 4 else 2)).ok with
      | false =>
        rw [hs4] at h
        rw [if_pos rfl] at h
        exact absurd h (by simp)
      | true =>
        rw [hs4] at h
        rw [if_neg (by simp : ¬ (true = false))] at h ⊢
        unfold lz2IterLimit at h ⊢
        rw [if_pos rfl] at h
        rw [if_neg (by simp : ¬ (true = false))]
        dsimp only at h
        cases hdl : dtSetLimit st.dict
            (parseChunkSizes chunk (bfRead ⟨inp, st.inOff, inSize⟩).byte
              (byteAt inp (bfRead ⟨inp, st.inOff, inSize⟩).st.offset)
              (byteAt inp ((bfRead ⟨inp, st.inOff, inSize⟩).st.offset + 1))
              (byteAt inp ((bfRead ⟨inp, st.inOff, inSize⟩).st.offset + 2))
              (byteAt inp ((bfRead ⟨inp, st.inOff, inSize⟩).st.offset + 3))).rawSize with
      | none =>
        rw [hdl] at h
        exact absurd h (by simp)
      | some d1 =>
        rw [hdl] at h
        dsimp only at h
        exact c3_reset_next hEng hsz d c l h

/-- C3: whenever a full decode of the LZMA2 stream succeeds with N
bytes processed, the same input decoded in size-query mode also
succeeds, reports exactly N, ends at the same input offset, and does
not touch the dictionary it was given (the query run returns with its
dictionary and code word exactly as passed in). -/
theorem c3_size_query_agrees {σ : Type} (inp : List Nat) (inSize : Nat) (initLz : σ)
    (eng : EngState σ → Option (EngState σ))
    (hEng : ∀ s s1, eng s = some s1 → s1.inOff ≤ inSize) (hsz : inSize < U32)
    (fuel : Nat) (st : EngState σ) (chunk : ChunkState) (bp n : Nat) (stE : EngState σ)
    (h : lz2DecodeStream inp inSize initLz eng false fuel st chunk bp = some (n, stE))
    (d : DictState) (c : Nat) (l : σ) :
    ∃ l1, lz2DecodeStream inp inSize initLz eng true fuel ⟨st.inOff, d, c, l⟩ chunk bp =
      some (n, ⟨stE.inOff, d, c, l1⟩) := by
  induction fuel generalizing st chunk bp n stE l with
  | zero => exact absurd h (by simp [lz2DecodeStream])
  | succ fuel ih =>
    unfold lz2DecodeStream at h
    cases hit : lz2Iter inp inSize initLz eng false st chunk bp with
    | done n2 stE2 ch2 =>
      rw [hit] at h
      dsimp only at h
      injection h with hpair
      have hn : n2 = n := congrArg Prod.fst hpair
      have hstE : stE2 = stE := congrArg Prod.snd hpair
      subst hn
      subst hstE
      have hq := c3_iter_done d c l hit
      refine ⟨l, ?_⟩
      unfold lz2DecodeStream
      rw [hq]
    | fail =>
      rw [hit] at h
      exact absurd h (by simp)
    | next st1 ch1 bp1 =>
      rw [hit] at h
      dsimp only at h
      obtain ⟨l1, hq⟩ := c3_iter_next hEng hsz d c l hit
      obtain ⟨l2, hrec⟩ := ih st1 ch1 bp1 n stE h l1
      refine ⟨l2, ?_⟩
      unfold lz2DecodeStream
      rw [hq]
      exact hrec

/-- C3 witness: the agreement theorem applied to a one-chunk
uncompressed payload; the query run reports the same single byte and
returns the dictionary it was given. -/
theorem c3_size_query_agrees_w :
    ∃ l1, lz2DecodeStream [1, 0, 0, 9, 0] 5 () (fun _ => none) true 2
        ⟨0, ⟨[7, 7], 2, 0, 0, 0⟩, 3, ()⟩ ⟨0, 0⟩ 0 =
      some (1, ⟨5, ⟨[7, 7], 2, 0, 0, 0⟩, 3, l1⟩) :=
  c3_size_query_agrees [1, 0, 0, 9, 0] 5 () (fun _ => none)
    (fun s s1 hs => nomatch hs) (by decide) 2
    ⟨0, ⟨[0], 1, 0, 0, 0⟩, 0, ()⟩ ⟨0, 0⟩ 0 1 ⟨5, ⟨[9], 1, 1, 1, 0⟩, 0, ()⟩
    (by decide) ⟨[7, 7], 2, 0, 0, 0⟩ 3 ()

end Minlz
